import Mathlib

/-!
Verification of the precipitation aggregation pipeline shared by the
rain-dashboard scripts (streamlit_app.py, old_app.py, test_env.py,
google_streamlit_app.py).  The pipeline is embedded shallowly: pandas
DataFrames become lists of rows, timestamps become a civil date-time
record ordered through a mixed-radix key, pandas NaT/NaN become Option,
and real numbers become rationals.
-/

namespace RainDashboard

/-- Civil date-time with minute resolution, as produced by parsing the
ISO-8601 strings that the Open-Meteo endpoints return (the scripts pin a
single fixed timezone, America/Sao_Paulo, so a wall-clock record suffices). -/
structure DateTime where
  year : Nat
  month : Nat
  day : Nat
  hour : Nat
  minute : Nat
deriving DecidableEq, Repr

/-- Mixed-radix encoding of a date-time; comparing keys is chronological
comparison for in-range field values. -/
def DateTime.key (t : DateTime) : Nat :=
  (((t.year * 13 + t.month) * 32 + t.day) * 24 + t.hour) * 60 + t.minute

/-- Chronological comparison of date-times. -/
def dle (a b : DateTime) : Prop := a.key ≤ b.key

/-- Strict chronological comparison of date-times. -/
def dlt (a b : DateTime) : Prop := a.key < b.key

instance : DecidableRel dle := fun a b => Nat.decLe a.key b.key

instance : DecidableRel dlt := fun a b => Nat.decLt a.key b.key

instance : IsTotal DateTime dle := ⟨fun a b => Nat.le_total a.key b.key⟩

instance : IsTrans DateTime dle := ⟨fun _ _ _ h h2 => Nat.le_trans h h2⟩

/-- Splits a character list at every occurrence of the separator, the
character-level version of splitting a string on a separator. -/
def splitOnChar (sep : Char) : List Char → List (List Char)
  | [] => [[]]
  | c :: rest =>
    let r := splitOnChar sep rest
    if c = sep then [] :: r
    else
      match r with
      | [] => [[c]]
      | g :: gs => (c :: g) :: gs

/-- Value of a decimal digit character, none for any other character. -/
def digitVal (c : Char) : Option Nat :=
  if 48 ≤ c.toNat ∧ c.toNat ≤ 57 then some (c.toNat - 48) else none

/-- Accumulating decimal reader over a character list. -/
def readNatAux : List Char → Nat → Option Nat
  | [], acc => some acc
  | c :: rest, acc =>
    match digitVal c with
    | none => none
    | some d => readNatAux rest (acc * 10 + d)

/-- Reads a nonempty all-digit character list as a natural number. -/
def readNat : List Char → Option Nat
  | [] => none
  | l => readNatAux l 0

/-- Parses the date component of an ISO-8601 string, shape YYYY-MM-DD,
with in-range month and day fields. -/
def parseDatePart (s : List Char) : Option (Nat × Nat × Nat) :=
  match splitOnChar ('-') s with
  | [y, m, d] =>
    match readNat y, readNat m, readNat d with
    | some y2, some m2, some d2 =>
      if 1 ≤ m2 ∧ m2 ≤ 12 ∧ 1 ≤ d2 ∧ d2 ≤ 31 then some (y2, m2, d2) else none
    | _, _, _ => none
  | _ => none

/-- Parses the time component of an ISO-8601 string, shape HH:MM, with
in-range hour and minute fields. -/
def parseTimePart (s : List Char) : Option (Nat × Nat) :=
  match splitOnChar (':') s with
  | [h, mi] =>
    match readNat h, readNat mi with
    | some h2, some mi2 =>
      if h2 ≤ 23 ∧ mi2 ≤ 59 then some (h2, mi2) else none
    | _, _ => none
  | _ => none

/-- Models pandas.to_datetime with errors coerced to missing values, on
the two ISO-8601 shapes the Open-Meteo endpoints emit (YYYY-MM-DD and
YYYY-MM-DDTHH:MM); an unparseable string becomes none, the embedding of
pandas NaT. -/
def pd_to_datetime (s : String) : Option DateTime :=
  match splitOnChar ('T') s.data with
  | [d] => (parseDatePart d).map (fun p => ⟨p.1, p.2.1, p.2.2, 0, 0⟩)
  | [d, t] =>
    match parseDatePart d, parseTimePart t with
    | some p, some q => some ⟨p.1, p.2.1, p.2.2, q.1, q.2⟩
    | _, _ => none
  | _ => none

/-! ### Rain intensity thresholding (claim C1)

All three dashboard variants classify the latest precipitation value with
the same two-sided threshold chain: at most 0 mm, at most 2 mm, above 2 mm.
-/

/-- Intensity bands of the status card. -/
inductive Intensity
  | NONE
  | MILD
  | STRONG
deriving DecidableEq, Repr

/-- Label text shared by the status cards. -/
def LBL_NONE : String := "Not raining"

/-- Label text shared by the status cards. -/
def LBL_MILD : String := "Mild rain"

/-- Label text of the heavy band in streamlit_app.py and
google_streamlit_app.py. -/
def LBL_STRONG : String := "Heavy rain"

/-- Emoji label of the dry band in old_app.py. -/
def EMO_NONE : String := "☀️ Not raining"

/-- Emoji label of the mild band in old_app.py. -/
def EMO_MILD : String := "🌧️ Mild rain"

/-- Emoji label of the strong band in old_app.py. -/
def EMO_STRONG : String := "⛈️ Strong rain"

/-- Status-card label chain of streamlit_app.py, lines 283 to 291. -/
def status_label (latest_precip : ℚ) : String :=
  if latest_precip ≤ 0 then LBL_NONE
  else if latest_precip ≤ 2 then LBL_MILD
  else LBL_STRONG

/-- Emoji helper rain_emoji of old_app.py, lines 77 to 84. -/
def rain_emoji (value : ℚ) : String :=
  if value ≤ 0 then EMO_NONE
  else if value ≤ 2 then EMO_MILD
  else EMO_STRONG

/-- Status-card label chain of google_streamlit_app.py, lines 222 to 230. -/
def google_status_label (val : ℚ) : String :=
  if val ≤ 0 then LBL_NONE
  else if val ≤ 2 then LBL_MILD
  else LBL_STRONG

/-- The common thresholding the three variants implement, written on the
intensity enumeration. -/
def classify_intensity (value_mm : ℚ) : Intensity :=
  if value_mm ≤ 0 then Intensity.NONE
  else if value_mm ≤ 2 then Intensity.MILD
  else Intensity.STRONG

/-- Plain label of an intensity band. -/
def intensityLabel : Intensity → String
  | Intensity.NONE => LBL_NONE
  | Intensity.MILD => LBL_MILD
  | Intensity.STRONG => LBL_STRONG

/-- Emoji label of an intensity band, as in old_app.py. -/
def intensityEmoji : Intensity → String
  | Intensity.NONE => EMO_NONE
  | Intensity.MILD => EMO_MILD
  | Intensity.STRONG => EMO_STRONG

/-- C1: classify_intensity is the pure thresholding with boundaries 0 and 2:
nonpositive values give NONE, values in (0, 2] give MILD, values above 2 give
STRONG; the listed sample points evaluate as stated, and each implementation
variant (the streamlit_app status card, rain_emoji of old_app, and the google
variant status card) applies these exact boundaries. -/
theorem classify_intensity_thresholds (v : ℚ) :
    (v ≤ 0 → classify_intensity v = Intensity.NONE) ∧
    (0 < v → v ≤ 2 → classify_intensity v = Intensity.MILD) ∧
    (2 < v → classify_intensity v = Intensity.STRONG) ∧
    classify_intensity 0 = Intensity.NONE ∧
    classify_intensity 2 = Intensity.MILD ∧
    classify_intensity (201/100) = Intensity.STRONG ∧
    classify_intensity (-1) = Intensity.NONE ∧
    status_label v = intensityLabel (classify_intensity v) ∧
    google_status_label v = intensityLabel (classify_intensity v) ∧
    rain_emoji v = intensityEmoji (classify_intensity v) := by
  refine ⟨?_, ?_, ?_, by norm_num [classify_intensity], by norm_num [classify_intensity],
    by norm_num [classify_intensity], by norm_num [classify_intensity], ?_, ?_, ?_⟩
  · intro h
    simp [classify_intensity, h]
  · intro h1 h2
    simp [classify_intensity, not_le.mpr h1, h2]
  · intro h
    have h0 : (0 : ℚ) < v := lt_trans (by norm_num) h
    simp [classify_intensity, not_le.mpr h0, not_le.mpr h]
  all_goals
    rcases le_or_lt v 0 with h | h
    · simp [status_label, google_status_label, rain_emoji, classify_intensity,
        intensityLabel, intensityEmoji, h]
    · rcases le_or_lt v 2 with h2 | h2
      · simp [status_label, google_status_label, rain_emoji, classify_intensity,
          intensityLabel, intensityEmoji, not_le.mpr h, h2]
      · simp [status_label, google_status_label, rain_emoji, classify_intensity,
          intensityLabel, intensityEmoji, not_le.mpr h, not_le.mpr h2]

/-! ### History/forecast partition (claims C2, C3) and latest observed sample (claim C6)

The hourly DataFrame with its time column parsed and valid is a list of
samples; the split into historical and forecast rows filters on a strict
comparison against the current instant.
-/

/-- One row of the hourly table whose timestamp parsed: a sample of the
Series, with its precipitation value. -/
structure Sample where
  time : DateTime
  precip : ℚ
deriving DecidableEq, Repr

/-- History/forecast split of streamlit_app.py lines 225 to 232 (and the
identical split of test_env.py lines 119 to 123): is_forecast marks rows
whose time is strictly greater than now, the observed part keeps the rows
with is_forecast false and the forecast part the rows with is_forecast
true. -/
def partition (series : List Sample) (now : DateTime) : List Sample × List Sample :=
  let is_forecast : Sample → Bool := fun s => decide (dlt now s.time)
  (series.filter (fun s => !(is_forecast s)), series.filter is_forecast)

/-- History/forecast split of old_app.py lines 201 to 204: hist_mask keeps
rows with time at most now, the forecast part is its complement. -/
def partition_old (series : List Sample) (now : DateTime) : List Sample × List Sample :=
  let hist_mask : Sample → Bool := fun s => decide (dle s.time now)
  (series.filter hist_mask, series.filter (fun s => !(hist_mask s)))

/-- Latest observed sample of streamlit_app.py lines 270 to 277: the last
row of the observed part when that part is nonempty, the last row of the
whole table otherwise; nothing when the table is empty (the card is only
rendered for a nonempty table). -/
def latest_observed (series : List Sample) (now : DateTime) : Option Sample :=
  if series.isEmpty then none
  else
    let last_obs := series.filter (fun s => !(decide (dlt now s.time)))
    if last_obs.isEmpty then series.getLast? else last_obs.getLast?

/-- Last-row access iloc at index -1, raising an IndexError on an empty
table. -/
def iloc_last {α : Type} (l : List α) : Except String α :=
  match l.getLast? with
  | none => Except.error "IndexError"
  | some x => Except.ok x

/-- Latest observed sample of old_app.py lines 206 to 209, built on the
hist_mask split: the last row of df_hist when that part is nonempty, the
last row of the whole table otherwise.  Unlike the streamlit_app variant
this code runs unguarded, so on an empty table the last-row access raises
an IndexError. -/
def latest_observed_old (series : List Sample) (now : DateTime) : Except String Sample :=
  let df_hist := series.filter (fun s => decide (dle s.time now))
  if df_hist.isEmpty then iloc_last series else iloc_last df_hist

/-- Witness for C1: the theorem applied at concrete inputs, discharging the
threshold hypotheses there. -/
theorem classify_intensity_thresholds_witness :
    classify_intensity (-1) = Intensity.NONE ∧
    classify_intensity 1 = Intensity.MILD ∧
    classify_intensity 3 = Intensity.STRONG :=
  ⟨(classify_intensity_thresholds (-1)).1 (by norm_num),
   ((classify_intensity_thresholds 1).2.1 (by norm_num) (by norm_num)),
   ((classify_intensity_thresholds 3).2.2.1 (by norm_num))⟩

/-- Pointwise agreement of the two membership masks: being at most now is
the negation of being strictly after now. -/
theorem mask_agree (s : Sample) (t : DateTime) :
    decide (dle s.time t) = !(decide (dlt t s.time)) := by
  simp only [dle, dlt, ← decide_not, decide_eq_decide]
  exact (Nat.not_lt).symm

/-- C2: a sample lands in the forecast part of the partition exactly when
its timestamp is strictly greater than the reference instant; a sample whose
timestamp equals the reference instant lands in the observed part; and the
old_app mask-based split computes the same partition. -/
theorem partition_forecast_strict (series : List Sample) (t : DateTime) :
    (∀ s : Sample, s ∈ (partition series t).2 ↔ s ∈ series ∧ t.key < s.time.key) ∧
    (∀ s : Sample, s.time.key = t.key → (s ∈ (partition series t).1 ↔ s ∈ series)) ∧
    partition_old series t = partition series t := by
  refine ⟨?_, ?_, ?_⟩
  · intro s
    simp [partition, List.mem_filter, dlt]
  · intro s h
    simp [partition, List.mem_filter, dlt, h]
  · have e1 : series.filter (fun s => decide (dle s.time t)) =
        series.filter (fun s => !(decide (dlt t s.time))) :=
      List.filter_congr (fun s _ => mask_agree s t)
    have e2 : series.filter (fun s => !(decide (dle s.time t))) =
        series.filter (fun s => decide (dlt t s.time)) :=
      List.filter_congr (fun s _ => by rw [mask_agree s t, Bool.not_not])
    show (series.filter (fun s => decide (dle s.time t)),
        series.filter (fun s => !(decide (dle s.time t)))) =
      (series.filter (fun s => !(decide (dlt t s.time))),
        series.filter (fun s => decide (dlt t s.time)))
    rw [e1, e2]

/-- Witness for C2: the theorem applied to a concrete two-sample series,
placing the later sample in the forecast part and a tied sample in the
observed part. -/
theorem partition_forecast_strict_witness :
    (⟨⟨2024, 1, 1, 5, 0⟩, 2⟩ : Sample) ∈
      (partition [⟨⟨2024, 1, 1, 3, 0⟩, 1⟩, ⟨⟨2024, 1, 1, 5, 0⟩, 2⟩] ⟨2024, 1, 1, 3, 0⟩).2 ∧
    (⟨⟨2024, 1, 1, 3, 0⟩, 1⟩ : Sample) ∈
      (partition [⟨⟨2024, 1, 1, 3, 0⟩, 1⟩, ⟨⟨2024, 1, 1, 5, 0⟩, 2⟩] ⟨2024, 1, 1, 3, 0⟩).1 :=
  ⟨((partition_forecast_strict _ _).1 _).mpr ⟨by decide, by decide⟩,
   ((partition_forecast_strict _ _).2.1 _ (by decide)).mpr (by decide)⟩

/-- Splitting a chronologically sorted list at an instant and concatenating
the two filtered halves gives back the list. -/
theorem filter_le_append_filter_gt (series : List Sample) (t : DateTime)
    (hs : series.Pairwise (fun a b => dlt a.time b.time)) :
    series.filter (fun s => !(decide (dlt t s.time))) ++
      series.filter (fun s => decide (dlt t s.time)) = series := by
  induction series with
  | nil => simp
  | cons a l ih =>
    have ha := (List.pairwise_cons.mp hs).1
    have hl := (List.pairwise_cons.mp hs).2
    by_cases h : dlt t a.time
    · have h1 : ∀ x ∈ l, dlt t x.time := fun x hx => Nat.lt_trans h (ha x hx)
      have e1 : l.filter (fun s => !(decide (dlt t s.time))) = [] := by
        rw [List.filter_eq_nil_iff]
        intro x hx
        simp [h1 x hx]
      have e2 : l.filter (fun s => decide (dlt t s.time)) = l := by
        rw [List.filter_eq_self]
        intro x hx
        simp [h1 x hx]
      simp [h, e1, e2]
    · simp [h, ih hl]

/-- C3: for a strictly ascending series, the observed part concatenated with
the forecast part reconstructs the series in original order, every observed
sample is at most the reference instant, every forecast sample is strictly
after it, and the empty series partitions into two empty parts without
error. -/
theorem partition_reconstructs (series : List Sample) (t : DateTime)
    (hs : series.Pairwise (fun a b => dlt a.time b.time)) :
    (partition series t).1 ++ (partition series t).2 = series ∧
    (∀ s ∈ (partition series t).1, dle s.time t) ∧
    (∀ s ∈ (partition series t).2, dlt t s.time) ∧
    partition ([] : List Sample) t = ([], []) := by
  refine ⟨filter_le_append_filter_gt series t hs, ?_, ?_, rfl⟩
  · intro s hsm
    have := (List.mem_filter.mp hsm).2
    simp only [Bool.not_eq_true', decide_eq_false_iff_not] at this
    exact Nat.not_lt.mp this
  · intro s hsm
    have := (List.mem_filter.mp hsm).2
    simpa using this

/-- Witness for C3: the theorem applied to a concrete sorted series and a
reference instant lying between its two samples. -/
theorem partition_reconstructs_witness :
    (partition [⟨⟨2024, 1, 1, 1, 0⟩, 1⟩, ⟨⟨2024, 1, 1, 5, 0⟩, 2⟩] ⟨2024, 1, 1, 3, 0⟩).1 ++
      (partition [⟨⟨2024, 1, 1, 1, 0⟩, 1⟩, ⟨⟨2024, 1, 1, 5, 0⟩, 2⟩] ⟨2024, 1, 1, 3, 0⟩).2 =
      [⟨⟨2024, 1, 1, 1, 0⟩, 1⟩, ⟨⟨2024, 1, 1, 5, 0⟩, 2⟩] :=
  (partition_reconstructs _ _ (by decide)).1

/-- Last element of a chronologically sorted list is an upper bound of the
timestamps of its elements. -/
theorem getLast?_time_is_max {l : List Sample}
    (hs : l.Pairwise (fun a b => dle a.time b.time)) {s : Sample}
    (h : l.getLast? = some s) : ∀ x ∈ l, dle x.time s.time := by
  induction l with
  | nil => simp at h
  | cons a l ih =>
    cases l with
    | nil =>
      simp only [List.getLast?_singleton, Option.some.injEq] at h
      subst h
      intro x hx
      simp only [List.mem_singleton] at hx
      subst hx
      exact Nat.le_refl _
    | cons b m =>
      rw [List.getLast?_cons_cons] at h
      have ha := (List.pairwise_cons.mp hs).1
      have hl := (List.pairwise_cons.mp hs).2
      intro x hx
      rcases List.mem_cons.mp hx with rfl | hx2
      · exact ha s (List.mem_of_getLast?_eq_some h)
      · exact ih hl h x hx2

/-- C6 fails on the code: the old_app variant runs with no emptiness guard,
so on the empty series its last-row access raises an IndexError instead of
returning nothing without error. -/
theorem latest_observed_old_errors_on_empty :
    latest_observed_old ([] : List Sample) ⟨2024, 1, 1, 0, 0⟩ =
      Except.error "IndexError" := rfl

/-- C6 amended: on a sorted nonempty series the latest observed sample is
the last one at most the reference instant; when no sample is at most the
reference instant it falls back to the globally last sample; the
streamlit_app variant returns nothing exactly when the series is empty,
without error; the old_app variant computes the same sample whenever it
returns one, but on the empty series it raises an IndexError rather than
returning nothing. -/
theorem latest_observed_spec (series : List Sample) (t : DateTime)
    (hs : series.Pairwise (fun a b => dle a.time b.time)) :
    (latest_observed series t = none ↔ series = []) ∧
    ((∃ x ∈ series, dle x.time t) →
      ∃ s, latest_observed series t = some s ∧ s ∈ series ∧ dle s.time t ∧
        ∀ x ∈ series, dle x.time t → dle x.time s.time) ∧
    ((∀ x ∈ series, dlt t x.time) → latest_observed series t = series.getLast?) ∧
    (∀ s : Sample,
      latest_observed_old series t = Except.ok s ↔ latest_observed series t = some s) ∧
    (series = [] → latest_observed_old series t = Except.error "IndexError") := by
  by_cases hemp : series = []
  · subst hemp
    refine ⟨by simp [latest_observed], by simp, by simp [latest_observed],
      ?_, fun _ => rfl⟩
    intro s
    constructor
    · intro h
      exact absurd h (by simp [latest_observed_old, iloc_last])
    · intro h
      exact absurd h (by simp [latest_observed])
  · have hne : series.isEmpty = false := by
      simpa [List.isEmpty_iff] using hemp
    refine ⟨?_, ?_, ?_, ?_, fun h => absurd h hemp⟩
    · rw [latest_observed]
      simp only [hne, Bool.false_eq_true, if_false]
      constructor
      · intro hnone
        exfalso
        by_cases hob : (series.filter (fun s => !(decide (dlt t s.time)))).isEmpty
        · rw [if_pos hob, List.getLast?_eq_none_iff] at hnone
          exact hemp hnone
        · rw [if_neg hob, List.getLast?_eq_none_iff] at hnone
          rw [hnone] at hob
          exact hob rfl
      · intro h
        exact absurd h hemp
    · rintro ⟨x, hx, hxle⟩
      rw [latest_observed]
      simp only [hne, Bool.false_eq_true, if_false]
      have hxf : x ∈ series.filter (fun s => !(decide (dlt t s.time))) := by
        rw [List.mem_filter]
        exact ⟨hx, by simpa [dlt] using Nat.not_lt.mpr hxle⟩
      have hob : (series.filter (fun s => !(decide (dlt t s.time)))).isEmpty = false := by
        rw [Bool.eq_false_iff]
        intro hbad
        exact (List.ne_nil_of_mem hxf) (List.isEmpty_iff.mp hbad)
      rw [if_neg (by simp [hob])]
      have hfne : series.filter (fun s => !(decide (dlt t s.time))) ≠ [] :=
        List.ne_nil_of_mem hxf
      obtain ⟨s, hsl⟩ := Option.isSome_iff_exists.mp
        (by rw [List.getLast?_isSome]; exact hfne)
      refine ⟨s, hsl, ?_, ?_, ?_⟩
      · exact (List.mem_filter.mp (List.mem_of_getLast?_eq_some hsl)).1
      · have := (List.mem_filter.mp (List.mem_of_getLast?_eq_some hsl)).2
        simp only [Bool.not_eq_true', decide_eq_false_iff_not, dlt] at this
        exact Nat.not_lt.mp this
      · intro y hy hyle
        have hyf : y ∈ series.filter (fun s => !(decide (dlt t s.time))) := by
          rw [List.mem_filter]
          exact ⟨hy, by simpa [dlt] using Nat.not_lt.mpr hyle⟩
        exact getLast?_time_is_max (hs.sublist (List.filter_sublist series)) hsl y hyf
    · intro hall
      rw [latest_observed]
      simp only [hne, Bool.false_eq_true, if_false]
      rw [if_pos]
      rw [List.isEmpty_iff, List.filter_eq_nil_iff]
      intro x hx
      simp [hall x hx]
    · intro s
      rw [latest_observed]
      simp only [hne, Bool.false_eq_true, if_false]
      rw [latest_observed_old]
      rw [List.filter_congr (fun x _ => mask_agree x t)]
      by_cases hob : (series.filter (fun x => !(decide (dlt t x.time)))).isEmpty
      · rw [if_pos hob, if_pos hob]
        cases hgl : series.getLast? with
        | none => exact absurd (List.getLast?_eq_none_iff.mp hgl) hemp
        | some y => simp [iloc_last, hgl]
      · rw [if_neg hob, if_neg hob]
        cases hgl : (series.filter (fun x => !(decide (dlt t x.time)))).getLast? with
        | none =>
          exfalso
          rw [List.getLast?_eq_none_iff] at hgl
          rw [hgl] at hob
          exact hob rfl
        | some y => simp [iloc_last, hgl]

/-- Witness for C6: the theorem applied to a concrete sorted two-sample
series with a reference instant after the first sample. -/
theorem latest_observed_spec_witness :
    latest_observed [⟨⟨2024, 1, 1, 1, 0⟩, 1⟩, ⟨⟨2024, 1, 1, 5, 0⟩, 2⟩] ⟨2024, 1, 1, 3, 0⟩ =
      none ↔ ([⟨⟨2024, 1, 1, 1, 0⟩, 1⟩, ⟨⟨2024, 1, 1, 5, 0⟩, 2⟩] : List Sample) = [] :=
  (latest_observed_spec [⟨⟨2024, 1, 1, 1, 0⟩, 1⟩, ⟨⟨2024, 1, 1, 5, 0⟩, 2⟩]
    ⟨2024, 1, 1, 3, 0⟩ (by decide)).1

/-! ### Normalization of the raw hourly columns (claims C5, C7)

fetch_precip of streamlit_app.py builds a two-column table from the raw
time strings and values, parses the time column coercing failures to
missing values, and sorts ascending by time.  No row is ever dropped.
-/

/-- One row of the hourly table as fetch_precip builds it: the parse result
of the time string (missing on failure, the embedding of NaT) and the raw
precipitation value (missing when the source emitted null). -/
abbrev HRow := Option DateTime × Option ℚ

/-- Sort key of the time column: a valid timestamp is tagged 0 and carries
its chronological key, a missing timestamp is tagged 1 so that it sorts
after every valid one, exactly as sort_values places NaT last. -/
def okeyP : Option DateTime → ℕ × ℕ
  | none => (1, 0)
  | some t => (0, t.key)

/-- Boolean comparison of two entries of the time column under sort_values:
valid timestamps compare chronologically and missing timestamps sort after
every valid one. -/
def timeLeB : Option DateTime → Option DateTime → Bool
  | _, none => true
  | none, some _ => false
  | some x, some y => decide (x.key ≤ y.key)

/-- Strict boolean comparison of two entries of the time column. -/
def timeLtB : Option DateTime → Option DateTime → Bool
  | none, _ => false
  | some _, none => true
  | some x, some y => decide (x.key < y.key)

/-- Row ordering used when sorting the table by the time column. -/
def rle (a b : HRow) : Prop := timeLeB a.1 b.1 = true

/-- Strict version of the row ordering. -/
def rlt (a b : HRow) : Prop := timeLtB a.1 b.1 = true

instance : DecidableRel rle := fun a b => inferInstanceAs (Decidable (timeLeB a.1 b.1 = true))

instance : DecidableRel rlt := fun a b => inferInstanceAs (Decidable (timeLtB a.1 b.1 = true))

instance : IsTotal HRow rle :=
  ⟨fun a b => by
    rcases a with ⟨a1, a2⟩
    rcases b with ⟨b1, b2⟩
    cases a1 <;> cases b1 <;> simp [rle, timeLeB, Nat.le_total]⟩

instance : IsTrans HRow rle :=
  ⟨fun a b c h1 h2 => by
    rcases a with ⟨a1, a2⟩
    rcases b with ⟨b1, b2⟩
    rcases c with ⟨c1, c2⟩
    cases a1 <;> cases b1 <;> cases c1 <;>
      simp_all [rle, timeLeB] <;> omega⟩

instance : IsAntisymm HRow rlt :=
  ⟨fun a b h1 h2 => by
    exfalso
    rcases a with ⟨a1, a2⟩
    rcases b with ⟨b1, b2⟩
    cases a1 <;> cases b1 <;> simp_all [rlt, timeLtB] <;> omega⟩

/-- Strict row order makes the sort keys distinct. -/
theorem okeyP_ne_of_rlt {a b : HRow} (h : rlt a b) : okeyP a.1 ≠ okeyP b.1 := by
  rcases a with ⟨a1, a2⟩
  rcases b with ⟨b1, b2⟩
  cases a1 <;> cases b1 <;> simp_all [rlt, timeLtB, okeyP] <;> omega

/-- Lax row order together with distinct sort keys gives the strict order. -/
theorem rlt_of_rle_of_okeyP_ne {a b : HRow} (h : rle a b)
    (hne : okeyP a.1 ≠ okeyP b.1) : rlt a b := by
  rcases a with ⟨a1, a2⟩
  rcases b with ⟨b1, b2⟩
  cases a1 <;> cases b1 <;> simp_all [rle, rlt, timeLeB, timeLtB, okeyP] <;> omega

/-- Table construction of fetch_precip, streamlit_app.py line 147 to 149:
zip the two columns into rows and parse the time column, coercing parse
failures to missing values. -/
def parsed_rows (hours : List String) (precip : List (Option ℚ)) : List HRow :=
  (hours.zip precip).map (fun r => (pd_to_datetime r.1, r.2))

/-- Normalization of fetch_precip, streamlit_app.py lines 147 to 158: parse
the time column and sort ascending by time, missing timestamps last.  This
is the operation the spec calls normalize. -/
def fetch_precip_rows (hours : List String) (precip : List (Option ℚ)) : List HRow :=
  List.insertionSort rle (parsed_rows hours precip)

/-- Rows of the table whose timestamp parsed. -/
def validRows (l : List HRow) : List HRow := l.filter (fun r => r.1.isSome)

/-- C5 fails on the code: with one malformed timestamp among three valid
rows, normalize returns all three rows, not the two valid ones; the
malformed row is kept with its timestamp coerced to missing. -/
theorem normalize_keeps_malformed_row :
    (fetch_precip_rows ["2024-01-01T00:00", "not-a-date", "2024-01-01T02:00"]
      [some 1, some 2, some 3]).length ≠ 2 := by decide

/-- C5 amended: normalize never drops a row: its output has exactly one row
per input row, a malformed timestamp is coerced to a missing value and the
row kept; in the one-malformed-among-three scenario all three rows survive,
with the two valid rows first in their original relative order and the
malformed row last. -/
theorem normalize_keeps_all_rows (hours : List String) (precip : List (Option ℚ))
    (h : hours.length = precip.length) :
    (fetch_precip_rows hours precip).length = hours.length ∧
    fetch_precip_rows ["2024-01-01T00:00", "not-a-date", "2024-01-01T02:00"]
        [some 1, some 2, some 3] =
      [(some ⟨2024, 1, 1, 0, 0⟩, some 1), (some ⟨2024, 1, 1, 2, 0⟩, some 3),
        (none, some 2)] := by
  constructor
  · simp [fetch_precip_rows, parsed_rows, List.length_zip, h]
  · decide

/-- Witness for C5: the amended theorem applied to the concrete scenario
columns, discharging the equal-length hypothesis there. -/
theorem normalize_keeps_all_rows_witness :
    (fetch_precip_rows ["2024-01-01T00:00", "not-a-date", "2024-01-01T02:00"]
      [some 1, some 2, some 3]).length = 3 :=
  (normalize_keeps_all_rows ["2024-01-01T00:00", "not-a-date", "2024-01-01T02:00"]
    [some 1, some 2, some 3] (by decide)).1

/-- C7 fails on the code: normalize does not deduplicate timestamps: two
rows carrying the same time string yield two output rows with the same
timestamp. -/
theorem normalize_duplicate_timestamps :
    ¬ ((fetch_precip_rows ["2024-01-01T00:00", "2024-01-01T00:00"]
        [some 1, some 2]).map Prod.fst).Nodup := by decide

/-- C7 amended: for equal-length inputs the normalized table has output
length at most the input length (indeed equal), is sorted ascending by
timestamp with missing timestamps last and, provided the valid input
timestamps are strictly increasing, keeps the valid rows in their original
relative order with no duplicate timestamp among them. -/
theorem normalize_invariants (hours : List String) (precip : List (Option ℚ))
    (h : hours.length = precip.length)
    (hasc : (validRows (parsed_rows hours precip)).Pairwise rlt) :
    (fetch_precip_rows hours precip).length ≤ hours.length ∧
    (fetch_precip_rows hours precip).Pairwise rle ∧
    validRows (fetch_precip_rows hours precip) = validRows (parsed_rows hours precip) ∧
    ((validRows (fetch_precip_rows hours precip)).map Prod.fst).Nodup := by
  have hperm : List.Perm (fetch_precip_rows hours precip) (parsed_rows hours precip) :=
    List.perm_insertionSort rle (parsed_rows hours precip)
  have hsorted : (fetch_precip_rows hours precip).Pairwise rle :=
    List.sorted_insertionSort rle (parsed_rows hours precip)
  have hvperm : List.Perm (validRows (fetch_precip_rows hours precip))
      (validRows (parsed_rows hours precip)) := hperm.filter _
  have hvnodup : ((validRows (parsed_rows hours precip)).map (fun r => okeyP r.1)).Nodup :=
    List.pairwise_map.mpr (hasc.imp (fun hab => okeyP_ne_of_rlt hab))
  have hvnodup2 : ((validRows (fetch_precip_rows hours precip)).map
      (fun r => okeyP r.1)).Nodup :=
    ((hvperm.map _).nodup_iff).mpr hvnodup
  have hvsorted : (validRows (fetch_precip_rows hours precip)).Pairwise rlt := by
    have h1 : (validRows (fetch_precip_rows hours precip)).Pairwise rle :=
      hsorted.sublist (List.filter_sublist _)
    have h2 : (validRows (fetch_precip_rows hours precip)).Pairwise
        (fun a b => okeyP a.1 ≠ okeyP b.1) := List.pairwise_map.mp hvnodup2
    exact (h1.and h2).imp (fun hab => rlt_of_rle_of_okeyP_ne hab.1 hab.2)
  have hveq : validRows (fetch_precip_rows hours precip) =
      validRows (parsed_rows hours precip) :=
    List.eq_of_perm_of_sorted hvperm hvsorted hasc
  refine ⟨?_, hsorted, hveq, ?_⟩
  · simp [fetch_precip_rows, parsed_rows, List.length_zip, h]
  · have h4 : (((validRows (fetch_precip_rows hours precip)).map Prod.fst).map
        okeyP).Nodup := by
      rw [List.map_map]
      exact hvnodup2
    exact List.Nodup.of_map okeyP h4

/-- Witness for C7: the amended theorem applied to concrete two-row columns
with strictly increasing valid timestamps. -/
theorem normalize_invariants_witness :
    (fetch_precip_rows ["2024-01-01T00:00", "2024-01-01T01:00"]
      [some 1, some 2]).length ≤ 2 :=
  (normalize_invariants ["2024-01-01T00:00", "2024-01-01T01:00"]
    [some 1, some 2] (by decide) (by decide)).1

/-! ### Monthly rollup (claims C4, C8)

fetch_monthly_precip of streamlit_app.py (and, identically, of
test_env.py) parses the daily date column, maps each date to the first day
of its calendar month, groups by that month key, sums the precipitation of
each group skipping missing values, sorts ascending by month and keeps the
last 12 rows.
-/

/-- One row of the daily table: parsed date (missing when the date string
did not parse) and raw precipitation value (missing for null). -/
abbrev DRow := Option DateTime × Option ℚ

/-- First day of the calendar month of a date-time, as the period
conversion month extraction produces it. -/
def monthStart (t : DateTime) : DateTime := ⟨t.year, t.month, 1, 0, 0⟩

/-- Sum of a value column that skips missing entries, as the pandas group
sum does. -/
def sumSkipna (l : List (Option ℚ)) : ℚ := (l.filterMap id).sum

/-- Group-by-month aggregation of fetch_monthly_precip: the groupby keys
are the distinct month starts of the rows whose date parsed (rows with a
missing key are dropped by groupby), listed ascending, and each key carries
the sum of the precipitation of its rows, skipping missing values. -/
def month_group_sums (rows : List DRow) : List (DateTime × ℚ) :=
  let keys := List.insertionSort dle ((rows.filterMap (fun r => r.1.map monthStart)).dedup)
  keys.map (fun k => (k,
    sumSkipna ((rows.filter (fun r => r.1.map monthStart = some k)).map Prod.snd)))

/-- Last n rows of a table, the embedding of DataFrame.tail. -/
def tailRows {α : Type} (l : List α) (n : Nat) : List α := l.drop (l.length - n)

/-- Rollup pipeline on the parsed rows: group by month, sum, keep the last
trailing entries. -/
def rollup_rows (rows : List DRow) (trailing_months : Nat) : List (DateTime × ℚ) :=
  tailRows (month_group_sums rows) trailing_months

/-- Monthly rollup of fetch_monthly_precip, streamlit_app.py lines 194 to
197 and test_env.py lines 88 to 99: parse the daily date column coercing
failures to missing, group by the first day of the calendar month, sum per
group, sort ascending by month, keep the last trailing entries. -/
def monthly_rollup (dates : List String) (precip : List (Option ℚ))
    (trailing_months : Nat) : List (DateTime × ℚ) :=
  rollup_rows ((dates.map pd_to_datetime).zip precip) trailing_months

/-- Column-level monthly table of the concrete call sites, keeping the
last 12 months. -/
def fetch_monthly_df (dates : List String) (precip : List (Option ℚ)) :
    List (DateTime × ℚ) :=
  monthly_rollup dates precip 12

section MonthlyEval

attribute [local semireducible] Rat.add

/-- C4: the rollup groups by first-of-month, keeps only the last
trailing_months group rows (all of them when fewer exist, with no zero
padding: every output month comes from some input row), sorted ascending by
month; and the two-month scenario of the spec evaluates exactly as
stated. -/
theorem monthly_rollup_trailing (rows : List DRow) (n : Nat) :
    (rollup_rows rows n).length = min (month_group_sums rows).length n ∧
    List.IsSuffix (rollup_rows rows n) (month_group_sums rows) ∧
    ((rollup_rows rows n).map Prod.fst).Pairwise dle ∧
    (∀ e ∈ rollup_rows rows n, ∃ r ∈ rows, r.1.map monthStart = some e.1) ∧
    monthly_rollup ["2024-01-01T00:00", "2024-01-01T01:00", "2024-02-15T10:00"]
        [some 1, some 2, some 5] 12 =
      [(⟨2024, 1, 1, 0, 0⟩, 3), (⟨2024, 2, 1, 0, 0⟩, 5)] := by
  refine ⟨?_, List.drop_suffix _ _, ?_, ?_, by decide⟩
  · show ((month_group_sums rows).drop ((month_group_sums rows).length - n)).length = _
    rw [List.length_drop]
    omega
  · have hkeys : ((month_group_sums rows).map Prod.fst).Pairwise dle := by
      rw [month_group_sums, List.map_map]
      exact List.pairwise_map.mpr (List.sorted_insertionSort dle _)
    exact hkeys.sublist ((List.drop_sublist _ _).map Prod.fst)
  · intro e he
    have he2 : e ∈ month_group_sums rows := List.drop_subset _ _ he
    rw [month_group_sums] at he2
    obtain ⟨k, hk, hke⟩ := List.mem_map.mp he2
    obtain ⟨r, hr, hrk⟩ := List.mem_filterMap.mp (List.mem_dedup.mp
      ((List.mem_insertionSort dle).mp hk))
    exact ⟨r, hr, by rw [hrk, ← hke]⟩

/-- Witness for C4: the theorem applied to the concrete scenario rows. -/
theorem monthly_rollup_trailing_witness :
    (rollup_rows [(some ⟨2024, 1, 1, 0, 0⟩, some 1)] 12).length =
      min (month_group_sums [(some ⟨2024, 1, 1, 0, 0⟩, some 1)]).length 12 :=
  (monthly_rollup_trailing [(some ⟨2024, 1, 1, 0, 0⟩, some 1)] 12).1

/-- Summing with missing entries skipped is summing with missing entries
replaced by zero. -/
theorem sumSkipna_fill_zero (ms : List (Option ℚ)) :
    sumSkipna ms = sumSkipna (ms.map (fun o => some (o.getD 0))) := by
  induction ms with
  | nil => rfl
  | cons o rest ih =>
    cases o <;> simp [sumSkipna, List.filterMap_cons, ih, sumSkipna] at ih ⊢ <;>
      simp [ih]

/-- C8: every rollup total is the skip-missing sum of the values of its
month, the whole aggregation is unchanged when missing values are replaced
by zero before summing, and an all-missing month sums to zero rather than
failing or propagating the missing value. -/
theorem monthly_rollup_missing_values (rows : List DRow) (n : Nat) :
    (∀ e ∈ rollup_rows rows n,
      e.2 = sumSkipna ((rows.filter
        (fun r => r.1.map monthStart = some e.1)).map Prod.snd)) ∧
    month_group_sums rows =
      month_group_sums (rows.map (fun r => (r.1, some (r.2.getD 0)))) ∧
    fetch_monthly_df ["2024-01-01"] [none] = [(⟨2024, 1, 1, 0, 0⟩, 0)] := by
  refine ⟨?_, ?_, by decide⟩
  · intro e he
    have he2 : e ∈ month_group_sums rows := List.drop_subset _ _ he
    rw [month_group_sums] at he2
    obtain ⟨k, _, hke⟩ := List.mem_map.mp he2
    rw [← hke]
  · rw [month_group_sums, month_group_sums]
    have hkeys : (rows.map (fun r : DRow => (r.1, some (r.2.getD 0)))).filterMap
        (fun r : DRow => r.1.map monthStart) =
        rows.filterMap (fun r : DRow => r.1.map monthStart) :=
      List.filterMap_map _ _ _
    rw [hkeys]
    refine List.map_congr_left (fun k _ => ?_)
    have hfil : (rows.map (fun r : DRow => (r.1, some (r.2.getD 0)))).filter
        (fun r : DRow => decide (r.1.map monthStart = some k)) =
        (rows.filter (fun r : DRow => decide (r.1.map monthStart = some k))).map
          (fun r : DRow => (r.1, some (r.2.getD 0))) :=
      List.filter_map _ _
    rw [hfil, List.map_map]
    have hsum := sumSkipna_fill_zero ((rows.filter (fun r : DRow =>
      decide (r.1.map monthStart = some k))).map Prod.snd)
    rw [List.map_map] at hsum
    exact congrArg (fun x => (k, x)) hsum

/-- Witness for C8: the theorem applied to a concrete one-row table. -/
theorem monthly_rollup_missing_values_witness :
    ((⟨2024, 1, 1, 0, 0⟩, (1 : ℚ)) : DateTime × ℚ).2 =
      sumSkipna (([((some ⟨2024, 1, 1, 0, 0⟩, some 1) : DRow)].filter
        (fun r => r.1.map monthStart = some (⟨2024, 1, 1, 0, 0⟩ : DateTime))).map
          Prod.snd) :=
  (monthly_rollup_missing_values [(some ⟨2024, 1, 1, 0, 0⟩, some 1)] 12).1
    (⟨2024, 1, 1, 0, 0⟩, 1) (by decide)

end MonthlyEval

/-! ### Missing-field guards of the fetch functions (claim C9)

The scripts decode an Open-Meteo JSON response and read its time-series
block.  streamlit_app.py guards both the hourly and the daily block and
old_app.py guards the monthly block, returning an empty table when the
block is absent; test_env.py and the hourly fetch of old_app.py index the
hourly block without a guard and raise a KeyError when it is absent.
-/

/-- Time-series block of an Open-Meteo response: the time strings and the
value column (precipitation, precipitation_sum, ...), values possibly
null. -/
structure SeriesBlock where
  time : List String
  values : List (Option ℚ)

/-- Decoded response as the scripts see it: the error marker that the safe
request wrapper sets on transport failure, and the optional time-series
blocks of the three endpoints. -/
structure Response where
  error : Bool
  hourly : Option SeriesBlock
  daily : Option SeriesBlock
  monthly : Option SeriesBlock

/-- fetch_precip of streamlit_app.py lines 135 to 159, from the decoded
response on: an error response or a response without an hourly block gives
the empty table, otherwise the rows are built and normalized. -/
def fetch_precip (data : Response) : List HRow :=
  if data.error then []
  else
    match data.hourly with
    | none => []
    | some h => fetch_precip_rows h.time h.values

/-- fetch_monthly_precip of streamlit_app.py lines 183 to 197, from the
decoded response on: an error response or a response without a daily block
gives the empty table, otherwise the daily rows are rolled up by month. -/
def fetch_monthly_precip (data : Response) : List (DateTime × ℚ) :=
  if data.error then []
  else
    match data.daily with
    | none => []
    | some d => fetch_monthly_df d.time d.values

/-- get_monthly_precip of old_app.py lines 103 to 129: a response without a
monthly block, or with an empty month list, gives the empty table;
otherwise the monthly rows are parsed, sorted by month and the last 12
kept. -/
def get_monthly_precip (data : Response) : List HRow :=
  match data.monthly with
  | none => []
  | some m =>
    if m.time.isEmpty then []
    else tailRows (List.insertionSort rle ((m.time.map pd_to_datetime).zip m.values)) 12

/-- fetch_precip of test_env.py lines 34 to 59: the hourly block is read by
plain indexing, so a response without it raises a KeyError, modelled as an
error result. -/
def fetch_precip_test_env (data : Response) : Except String (List HRow) :=
  match data.hourly with
  | none => Except.error "KeyError: hourly"
  | some h => Except.ok (fetch_precip_rows h.time h.values)

/-- get_hourly_precip of old_app.py lines 88 to 99: the hourly block is
read by plain indexing, so a response without it raises a KeyError,
modelled as an error result. -/
def get_hourly_precip (data : Response) : Except String (List HRow) :=
  match data.hourly with
  | none => Except.error "KeyError: hourly"
  | some h => Except.ok ((h.time.map pd_to_datetime).zip h.values)

/-- C9 fails on the code: on a response carrying no time-series block at
all, the test_env variant raises a KeyError instead of returning an empty
Series, contradicting the claim that every implementation variant returns
empty without raising. -/
theorem missing_fields_test_env_raises :
    fetch_precip_test_env ⟨false, none, none, none⟩ =
      Except.error "KeyError: hourly" := rfl

/-- C9 amended: on input missing the expected time-series fields the
guarded variants (fetch_precip and fetch_monthly_precip of streamlit_app,
get_monthly_precip of old_app) return an empty Series without raising,
while the unguarded variants (fetch_precip of test_env, get_hourly_precip
of old_app) raise a KeyError. -/
theorem missing_fields_guarded (data : Response) :
    (data.hourly = none → fetch_precip data = []) ∧
    (data.daily = none → fetch_monthly_precip data = []) ∧
    (data.monthly = none → get_monthly_precip data = []) ∧
    (data.hourly = none →
      fetch_precip_test_env data = Except.error "KeyError: hourly" ∧
      get_hourly_precip data = Except.error "KeyError: hourly") := by
  obtain ⟨err, hh, hd, hm⟩ := data
  refine ⟨?_, ?_, ?_, ?_⟩ <;> intro h
  · cases err <;> simp_all [fetch_precip]
  · cases err <;> simp_all [fetch_monthly_precip]
  · simp_all [get_monthly_precip]
  · simp_all [fetch_precip_test_env, get_hourly_precip]

/-- Witness for C9: the amended theorem applied to the concrete response
with no blocks, discharging the missing-field hypotheses there. -/
theorem missing_fields_guarded_witness :
    fetch_precip ⟨false, none, none, none⟩ = [] ∧
    fetch_monthly_precip ⟨false, none, none, none⟩ = [] ∧
    get_monthly_precip ⟨false, none, none, none⟩ = [] :=
  ⟨(missing_fields_guarded ⟨false, none, none, none⟩).1 rfl,
   (missing_fields_guarded ⟨false, none, none, none⟩).2.1 rfl,
   (missing_fields_guarded ⟨false, none, none, none⟩).2.2.1 rfl⟩

/-! ### Google variant: radius sampling and maximum aggregation (claim C10)

google_streamlit_app.py samples a square grid of points around the
requested location, fetches an hourly table per point, and aggregates the
nonempty tables into one table holding, per timestamp, the maximum
precipitation over the sampled points.  The per-point fetch performs
network IO, so it enters the embedding as an oracle; the cosine of the
centre latitude is transcendental and enters only through a constant
longitude scale, so it is passed as a parameter.
-/

/-- One row of a per-point Google Weather table: the parsed forecast time
and the precipitation amount (a missing amount is already defaulted to 0 at
extraction, google_streamlit_app.py line 139). -/
structure GRow where
  time : DateTime
  precip : ℚ
deriving DecidableEq, Repr

/-- Python int truncation of a rational towards zero. -/
def pyInt (q : ℚ) : Int := if q < 0 then -(Int.floor (-q)) else Int.floor q

/-- generate_radius_points of google_streamlit_app.py lines 103 to 115: the
square grid of step-kilometre offsets around the centre, from -steps to
steps in both axes, where steps is the truncated ratio of radius to
step. -/
def generate_radius_points (lat lon coslat radius_km step_km : ℚ) : List (ℚ × ℚ) :=
  let lat_km : ℚ := 1 / 111
  let lon_km : ℚ := 1 / (111 * coslat)
  let steps : Int := pyInt (radius_km / step_km)
  let idxs : List Int := (List.range (2 * steps + 1).toNat).map (fun k => (k : Int) - steps)
  idxs.bind (fun i => idxs.map (fun j =>
    (lat + i * step_km * lat_km, lon + j * step_km * lon_km)))

/-- Maximum of a value column, as the pandas group maximum of a nonempty
group. -/
def maxQ : List ℚ → ℚ
  | [] => 0
  | x :: xs => xs.foldl max x

/-- Group-by-time maximum over a combined table: distinct timestamps listed
ascending, each carrying the maximum precipitation among its rows. -/
def group_max (combined : List GRow) : List (DateTime × ℚ) :=
  (List.insertionSort dle ((combined.map GRow.time).dedup)).map
    (fun k => (k, maxQ ((combined.filter (fun r => r.time = k)).map GRow.precip)))

/-- fetch_max_precip_radius of google_streamlit_app.py lines 149 to 172,
with the per-point fetch supplied as an oracle: sample the default 5 km
grid, keep the nonempty per-point tables, and when any remain aggregate
their concatenation by per-timestamp maximum, sorted ascending by time. -/
def fetch_max_precip_radius (lat lon coslat : ℚ) (fetch : ℚ × ℚ → List GRow) :
    List (DateTime × ℚ) :=
  if ((((generate_radius_points lat lon coslat 5 (5/2)).map fetch).filter
      (fun df => !df.isEmpty))).isEmpty then []
  else group_max ((((generate_radius_points lat lon coslat 5 (5/2)).map fetch).filter
    (fun df => !df.isEmpty))).join

/-- A seeded left fold by maximum dominates its seed. -/
theorem seed_le_foldl_max : ∀ (xs : List ℚ) (x : ℚ), x ≤ xs.foldl max x := by
  intro xs
  induction xs with
  | nil => exact fun x => le_refl x
  | cons y ys ih =>
    intro x
    exact le_trans (le_max_left x y) (ih (max x y))

/-- A left fold by maximum is monotone in its seed. -/
theorem foldl_max_mono : ∀ (xs : List ℚ) {a b : ℚ}, a ≤ b →
    xs.foldl max a ≤ xs.foldl max b := by
  intro xs
  induction xs with
  | nil => exact fun h => h
  | cons y ys ih =>
    intro a b h
    exact ih (max_le_max h (le_refl y))

/-- Every member of the fold list is at most the seeded fold maximum. -/
theorem mem_le_foldl_max : ∀ (xs : List ℚ) (a : ℚ), ∀ x ∈ xs, x ≤ xs.foldl max a := by
  intro xs
  induction xs with
  | nil => intro a x hx; cases hx
  | cons z zs ih =>
    intro a x hx
    rcases List.mem_cons.mp hx with rfl | hx2
    · exact le_trans (le_max_right a x) (seed_le_foldl_max zs (max a x))
    · exact ih (max a z) x hx2

/-- Every listed value is at most the column maximum. -/
theorem le_maxQ {l : List ℚ} : ∀ x ∈ l, x ≤ maxQ l := by
  cases l with
  | nil => intro x hx; cases hx
  | cons y ys =>
    intro x hx
    rcases List.mem_cons.mp hx with rfl | hx2
    · exact seed_le_foldl_max ys x
    · exact mem_le_foldl_max ys y x hx2

/-- A seeded fold maximum is the seed or one of the listed values. -/
theorem foldl_max_mem : ∀ (xs : List ℚ) (a : ℚ), xs.foldl max a ∈ a :: xs := by
  intro xs
  induction xs with
  | nil => exact fun a => List.mem_singleton.mpr rfl
  | cons z zs ih =>
    intro a
    show zs.foldl max (max a z) ∈ a :: z :: zs
    rcases max_choice a z with he | he
    · rw [he]
      rcases List.mem_cons.mp (ih a) with h1 | h1
      · exact List.mem_cons.mpr (Or.inl h1)
      · exact List.mem_cons_of_mem _ (List.mem_cons_of_mem _ h1)
    · rw [he]
      rcases List.mem_cons.mp (ih z) with h1 | h1
      · exact List.mem_cons_of_mem _ (List.mem_cons.mpr (Or.inl h1))
      · exact List.mem_cons_of_mem _ (List.mem_cons_of_mem _ h1)

/-- The column maximum of a nonempty column is one of its values. -/
theorem maxQ_mem : ∀ {l : List ℚ}, l ≠ [] → maxQ l ∈ l := by
  intro l
  cases l with
  | nil => intro h; exact absurd rfl h
  | cons y ys => exact fun _ => foldl_max_mem ys y

/-- Dropping the empty tables before concatenation does not change the
concatenated rows. -/
theorem mem_join_filter_nonempty {α : Type} (ls : List (List α)) (x : α) :
    x ∈ ((ls.filter (fun l => !l.isEmpty)).join) ↔ x ∈ ls.join := by
  constructor
  · intro hx
    obtain ⟨l, hl, hxl⟩ := List.mem_join.mp hx
    exact List.mem_join.mpr ⟨l, (List.mem_filter.mp hl).1, hxl⟩
  · intro hx
    obtain ⟨l, hl, hxl⟩ := List.mem_join.mp hx
    refine List.mem_join.mpr ⟨l, List.mem_filter.mpr ⟨hl, ?_⟩, hxl⟩
    simp only [Bool.not_eq_true']
    rw [Bool.eq_false_iff]
    intro hbad
    rw [List.isEmpty_iff.mp hbad] at hxl
    cases hxl

/-- The aggregation is the group maximum of the concatenated kept tables,
also in the all-empty case. -/
theorem fetch_max_precip_radius_eq (lat lon coslat : ℚ) (fetch : ℚ × ℚ → List GRow) :
    fetch_max_precip_radius lat lon coslat fetch =
      group_max ((((generate_radius_points lat lon coslat 5 (5/2)).map fetch).filter
        (fun df => !df.isEmpty))).join := by
  rw [fetch_max_precip_radius]
  by_cases h : ((((generate_radius_points lat lon coslat 5 (5/2)).map fetch).filter
      (fun df => !df.isEmpty))).isEmpty
  · rw [if_pos h, List.isEmpty_iff.mp h]
    rfl
  · rw [if_neg h]

/-- Membership description of the rows of the group maximum. -/
theorem group_max_facts (combined : List GRow) :
    ((group_max combined).map Prod.fst).Nodup ∧
    ((group_max combined).map Prod.fst).Pairwise dle ∧
    (∀ t : DateTime, (∃ r ∈ combined, GRow.time r = t) ↔
      ∃ v, (t, v) ∈ group_max combined) ∧
    (∀ t v, (t, v) ∈ group_max combined →
      (∃ r ∈ combined, GRow.time r = t ∧ GRow.precip r = v) ∧
      (∀ r ∈ combined, GRow.time r = t → GRow.precip r ≤ v)) := by
  have hfst : (group_max combined).map Prod.fst =
      List.insertionSort dle ((combined.map GRow.time).dedup) := by
    rw [group_max, List.map_map]
    have hid : (Prod.fst ∘ fun k : DateTime => (k, maxQ ((combined.filter
        (fun r => r.time = k)).map GRow.precip))) = id := rfl
    rw [hid, List.map_id]
  have hmemkeys : ∀ t : DateTime,
      t ∈ List.insertionSort dle ((combined.map GRow.time).dedup) ↔
        ∃ r ∈ combined, GRow.time r = t := by
    intro t
    simp only [List.mem_insertionSort, List.mem_dedup, List.mem_map]
  refine ⟨?_, ?_, ?_, ?_⟩
  · rw [hfst]
    exact ((List.perm_insertionSort dle _).nodup_iff).mpr (List.nodup_dedup _)
  · rw [hfst]
    exact List.sorted_insertionSort dle _
  · intro t
    constructor
    · intro ht
      exact ⟨maxQ ((combined.filter (fun r => r.time = t)).map GRow.precip),
        List.mem_map.mpr ⟨t, (hmemkeys t).mpr ht, rfl⟩⟩
    · rintro ⟨v, hv⟩
      obtain ⟨k, hk, hkv⟩ := List.mem_map.mp hv
      have hkt : k = t := congrArg Prod.fst hkv
      exact (hmemkeys t).mp (hkt ▸ hk)
  · intro t v hv
    obtain ⟨k, hk, hkv⟩ := List.mem_map.mp hv
    have hkt : k = t := congrArg Prod.fst hkv
    subst hkt
    have hvv : v = maxQ ((combined.filter (fun r => r.time = k)).map GRow.precip) :=
      (congrArg Prod.snd hkv).symm
    subst hvv
    have hne : (combined.filter (fun r => r.time = k)).map GRow.precip ≠ [] := by
      obtain ⟨r, hr, hrt⟩ := (hmemkeys k).mp hk
      have : r ∈ combined.filter (fun r => r.time = k) :=
        List.mem_filter.mpr ⟨hr, by simp [hrt]⟩
      intro hbad
      rw [List.map_eq_nil] at hbad
      rw [hbad] at this
      cases this
    constructor
    · obtain ⟨r, hrf, hrp⟩ := List.mem_map.mp (maxQ_mem hne)
      have hrc := List.mem_filter.mp hrf
      exact ⟨r, hrc.1, by simpa using hrc.2, hrp⟩
    · intro r hr hrt
      have : GRow.precip r ∈ (combined.filter (fun x => x.time = k)).map GRow.precip :=
        List.mem_map.mpr ⟨r, List.mem_filter.mpr ⟨hr, by simp [hrt]⟩, rfl⟩
      exact le_maxQ _ this

/-- C10: the sampled grid always contains the exact requested centre point,
and the aggregated table has one row per distinct timestamp occurring at any
sampled point, sorted ascending, each row carrying the maximum of the
per-point precipitation values at its timestamp: the value is attained at
some sampled point and bounds the value of every sampled point at that
timestamp, in particular the value of the centre point. -/
theorem fetch_max_precip_radius_spec (lat lon coslat : ℚ)
    (fetch : ℚ × ℚ → List GRow) :
    ((lat, lon) ∈ generate_radius_points lat lon coslat 5 (5/2)) ∧
    ((fetch_max_precip_radius lat lon coslat fetch).map Prod.fst).Nodup ∧
    ((fetch_max_precip_radius lat lon coslat fetch).map Prod.fst).Pairwise dle ∧
    (∀ t : DateTime,
      (∃ p ∈ generate_radius_points lat lon coslat 5 (5/2), ∃ r ∈ fetch p,
        GRow.time r = t) ↔
      ∃ v, (t, v) ∈ fetch_max_precip_radius lat lon coslat fetch) ∧
    (∀ t v, (t, v) ∈ fetch_max_precip_radius lat lon coslat fetch →
      (∃ p ∈ generate_radius_points lat lon coslat 5 (5/2), ∃ r ∈ fetch p,
        GRow.time r = t ∧ GRow.precip r = v) ∧
      (∀ p ∈ generate_radius_points lat lon coslat 5 (5/2), ∀ r ∈ fetch p,
        GRow.time r = t → GRow.precip r ≤ v) ∧
      (∀ r ∈ fetch (lat, lon), GRow.time r = t → GRow.precip r ≤ v)) := by
  have hcent : (lat, lon) ∈ generate_radius_points lat lon coslat 5 (5/2) := by
    show (lat, lon) ∈
      (let lat_km : ℚ := 1 / 111
       let lon_km : ℚ := 1 / (111 * coslat)
       let steps : Int := pyInt ((5 : ℚ) / (5/2))
       let idxs : List Int :=
         (List.range (2 * steps + 1).toNat).map (fun k => (k : Int) - steps)
       idxs.bind (fun i => idxs.map (fun j =>
         (lat + i * (5/2) * lat_km, lon + j * (5/2) * lon_km))))
    have hsteps : pyInt ((5 : ℚ) / (5/2)) = 2 := by
      norm_num [pyInt]
    rw [hsteps]
    refine List.mem_bind.mpr ⟨0, by decide, List.mem_map.mpr ⟨0, by decide, ?_⟩⟩
    simp only [Prod.mk.injEq]
    constructor <;> (push_cast; ring)
  have hmemc : ∀ r : GRow,
      (r ∈ ((((generate_radius_points lat lon coslat 5 (5/2)).map fetch).filter
        (fun df => !df.isEmpty))).join ↔
      ∃ p ∈ generate_radius_points lat lon coslat 5 (5/2), r ∈ fetch p) := by
    intro r
    rw [mem_join_filter_nonempty, List.mem_join]
    constructor
    · rintro ⟨l, hl, hrl⟩
      obtain ⟨p, hp, hpl⟩ := List.mem_map.mp hl
      exact ⟨p, hp, hpl ▸ hrl⟩
    · rintro ⟨p, hp, hrp⟩
      exact ⟨fetch p, List.mem_map.mpr ⟨p, hp, rfl⟩, hrp⟩
  rw [fetch_max_precip_radius_eq]
  obtain ⟨hn, hs, hiff, hmax⟩ := group_max_facts
    ((((generate_radius_points lat lon coslat 5 (5/2)).map fetch).filter
      (fun df => !df.isEmpty))).join
  refine ⟨hcent, hn, hs, ?_, ?_⟩
  · intro t
    rw [← hiff t]
    constructor
    · rintro ⟨p, hp, r, hr, hrt⟩
      exact ⟨r, (hmemc r).mpr ⟨p, hp, hr⟩, hrt⟩
    · rintro ⟨r, hr, hrt⟩
      obtain ⟨p, hp, hrp⟩ := (hmemc r).mp hr
      exact ⟨p, hp, r, hrp, hrt⟩
  · intro t v hv
    obtain ⟨hex, hub⟩ := hmax t v hv
    refine ⟨?_, ?_, ?_⟩
    · obtain ⟨r, hr, hrt, hrp⟩ := hex
      obtain ⟨p, hp, hrp2⟩ := (hmemc r).mp hr
      exact ⟨p, hp, r, hrp2, hrt, hrp⟩
    · intro p hp r hr hrt
      exact hub r ((hmemc r).mpr ⟨p, hp, hr⟩) hrt
    · intro r hr hrt
      exact hub r ((hmemc r).mpr ⟨(lat, lon), hcent, hr⟩) hrt

/-- Witness for C10: the theorem applied at a concrete centre and oracle;
the requested centre is one of the sampled grid points. -/
theorem fetch_max_precip_radius_spec_witness :
    ((0 : ℚ), (0 : ℚ)) ∈ generate_radius_points 0 0 1 5 (5/2) :=
  (fetch_max_precip_radius_spec 0 0 1 (fun _ => [])).1

end RainDashboard
